import Mathlib

/-!
# Verification of the rank-based evaluation engine

Shallow embedding of `src/pykeen/evaluation/rank_based_evaluator.py`:
`compute_rank_from_scores`, `RankBasedMetricResults` (`get_metric`,
`to_flat_dict`) and `RankBasedEvaluator` (`process_tail_scores_`,
`process_head_scores_`, `finalize`).

Score tensors are embedded as lists of `FVal`, an exact model of the
IEEE-754 values the code manipulates: a finite value (exact rational),
`+inf`, `-inf`, or `NaN`, with IEEE comparison semantics (every
comparison involving NaN is false).  Tensor reductions (`sum`, `mean`,
`reciprocal`, elementwise `<=`) and the NumPy aggregations of
`finalize` are modelled exactly, including `np.asarray(None)`
producing a 0-d NaN array when `finalize` runs on cleared buffers.
-/

set_option maxHeartbeats 1600000
set_option linter.unusedVariables false

/-- An IEEE-754 floating point value as the evaluator observes it:
NaN, +inf, -inf, or an exact finite value. -/
inductive FVal where
  | nan : FVal
  | inf : FVal
  | neginf : FVal
  | num : ℚ → FVal
deriving DecidableEq

instance : Inhabited FVal := ⟨FVal.nan⟩

namespace FVal

/-- IEEE `>` (used by `all_scores > true_score`, line 67).
Any comparison involving NaN is false. -/
def fgt : FVal → FVal → Bool
  | nan, _ => false
  | _, nan => false
  | inf, inf => false
  | inf, _ => true
  | neginf, _ => false
  | num _, inf => false
  | num _, neginf => true
  | num a, num b => decide (b < a)

/-- IEEE `>=` (used by `all_scores >= true_score`, line 73). -/
def fge : FVal → FVal → Bool
  | nan, _ => false
  | _, nan => false
  | inf, _ => true
  | neginf, neginf => true
  | neginf, _ => false
  | num _, inf => false
  | num _, neginf => true
  | num a, num b => decide (b ≤ a)

/-- IEEE `==` (NaN is not equal to anything, including itself). -/
def feq : FVal → FVal → Bool
  | num a, num b => decide (a = b)
  | inf, inf => true
  | neginf, neginf => true
  | _, _ => false

/-- `torch.isfinite` (line 80): true only for finite values. -/
def isfinite : FVal → Bool
  | num _ => true
  | _ => false

/-- NaN test. -/
def isNan : FVal → Bool
  | nan => true
  | _ => false

/-- IEEE addition (NaN propagates; inf + (-inf) = NaN). -/
def fadd : FVal → FVal → FVal
  | nan, _ => nan
  | _, nan => nan
  | inf, neginf => nan
  | neginf, inf => nan
  | inf, _ => inf
  | _, inf => inf
  | neginf, _ => neginf
  | _, neginf => neginf
  | num a, num b => num (a + b)

/-- IEEE division (NaN propagates; 0/0 and inf/inf are NaN; x/0 for
x ≠ 0 is a signed infinity, as NumPy/torch produce). -/
def fdiv : FVal → FVal → FVal
  | nan, _ => nan
  | _, nan => nan
  | inf, inf => nan
  | inf, neginf => nan
  | neginf, inf => nan
  | neginf, neginf => nan
  | inf, num b => if b < 0 then neginf else inf
  | neginf, num b => if b < 0 then inf else neginf
  | num _, inf => num 0
  | num _, neginf => num 0
  | num a, num b =>
      if b = 0 then (if a = 0 then nan else if 0 < a then inf else neginf)
      else num (a / b)

/-- `np.reciprocal` on a float64 entry (reciprocal of 0.0 is inf). -/
def frecip : FVal → FVal
  | nan => nan
  | inf => num 0
  | neginf => num 0
  | num a => if a = 0 then inf else num (1 / a)

/-- Elementwise `ranks <= k` against an integer `k` (line 243);
false whenever the entry is NaN. -/
def fleZ : FVal → ℤ → Bool
  | nan, _ => false
  | inf, _ => false
  | neginf, _ => true
  | num a, k => decide (a ≤ (k : ℚ))

end FVal

/-- `number_of_options = torch.isfinite(all_scores).sum(dim=1)`
(line 80), for one example row: the count of finite score entries. -/
def number_of_options (row : List FVal) : ℕ :=
  row.countP FVal.isfinite

/-- The four rank values `compute_rank_from_scores` produces for one
example row. `best` and `worst` are integer tensors in the source;
`avg` is the float `(best + worst) * 0.5`, always finite and exact;
`adj` is the float `avg / (0.5 * (number_of_options + 1))`. -/
structure RankRow where
  best : ℕ
  worst : ℕ
  avg : ℚ
  adj : FVal
deriving DecidableEq

/-- Per-example semantics of `compute_rank_from_scores`
(lines 67-95): counts of strictly-better and at-least-equal scores,
their midpoint, and the chance-adjusted average rank. -/
def computeRankRow (t : FVal) (row : List FVal) : RankRow :=
  let best := row.countP (fun s => FVal.fgt s t) + 1
  let worst := row.countP (fun s => FVal.fge s t)
  let avg : ℚ := ((best : ℚ) + (worst : ℚ)) * (1 / 2)
  let expected : ℚ := (1 / 2) * ((number_of_options row : ℚ) + 1)
  { best := best, worst := worst, avg := avg,
    adj := FVal.fdiv (FVal.num avg) (FVal.num expected) }

namespace FVal

theorem fgt_imp_fge {s t : FVal} (h : fgt s t = true) : fge s t = true := by
  cases s <;> cases t <;> simp_all [fgt, fge]
  exact le_of_lt h

theorem fgt_self_false (t : FVal) : fgt t t = false := by
  cases t <;> simp [fgt]

theorem fge_self_of_ne_nan {t : FVal} (h : t ≠ nan) : fge t t = true := by
  cases t <;> simp_all [fge]

theorem fge_eq_fgt_or_feq (s t : FVal) : fge s t = (fgt s t || feq s t) := by
  cases s <;> cases t <;> simp [fge, fgt, feq, le_iff_lt_or_eq, eq_comm]

end FVal

theorem countP_succ_le_countP {α : Type} {p q : α → Bool}
    (hpq : ∀ x, p x = true → q x = true) {x : α} {l : List α}
    (hx : x ∈ l) (hq : q x = true) (hp : p x = false) :
    l.countP p + 1 ≤ l.countP q := by
  induction l with
  | nil => cases hx
  | cons a l ih =>
    simp only [List.countP_cons]
    rcases List.mem_cons.mp hx with rfl | hx'
    · have hmono : l.countP p ≤ l.countP q :=
        List.countP_mono_left (fun a _ ha => hpq a ha)
      simp [hp, hq]
      omega
    · have h1 := ih hx'
      have h2 : (if p a = true then 1 else 0) ≤ (if q a = true then 1 else 0) := by
        by_cases h : p a = true
        · simp [h, hpq a h]
        · simp only [h, if_false]
          exact Nat.zero_le _
      omega

namespace FVal

theorem fgt_nan_left (t : FVal) : fgt nan t = false := by
  cases t <;> rfl

theorem fge_nan_left (t : FVal) : fge nan t = false := by
  cases t <;> rfl

end FVal

/-- C1 (amended): whenever the true score occurs among `all_scores`
and is not NaN, the per-example rank values satisfy
`1 ≤ best ≤ avg ≤ worst`. -/
theorem computeRankRow_ordering (t : FVal) (row : List FVal)
    (hmem : t ∈ row) (hnan : t ≠ FVal.nan) :
    1 ≤ (computeRankRow t row).best ∧
    ((computeRankRow t row).best : ℚ) ≤ (computeRankRow t row).avg ∧
    (computeRankRow t row).avg ≤ ((computeRankRow t row).worst : ℚ) ∧
    1 ≤ (computeRankRow t row).worst := by
  have key : row.countP (fun s => FVal.fgt s t) + 1 ≤
      row.countP (fun s => FVal.fge s t) :=
    countP_succ_le_countP (fun s h => FVal.fgt_imp_fge h) hmem
      (FVal.fge_self_of_ne_nan hnan) (FVal.fgt_self_false t)
  have keyQ : ((row.countP (fun s => FVal.fgt s t) : ℚ) + 1) ≤
      (row.countP (fun s => FVal.fge s t) : ℚ) := by exact_mod_cast key
  simp only [computeRankRow]
  refine ⟨by omega, ?_, ?_, by omega⟩
  · push_cast
    linarith
  · push_cast
    linarith

/-- C1 counterexample to the claim as stated: with a NaN true score
that occurs verbatim among `all_scores`, the worst rank is 0, so
neither `avg ≤ worst` nor `1 ≤ worst` holds. -/
theorem computeRankRow_ordering_cex :
    FVal.nan ∈ [FVal.nan] ∧
    ¬((computeRankRow FVal.nan [FVal.nan]).avg ≤
        ((computeRankRow FVal.nan [FVal.nan]).worst : ℚ) ∧
      1 ≤ (computeRankRow FVal.nan [FVal.nan]).worst) := by
  refine ⟨by decide, fun h => ?_⟩
  have := h.1
  norm_num [computeRankRow, List.countP_cons, List.countP_nil,
    FVal.fge, FVal.fgt] at this

/-- Witness for `computeRankRow_ordering` at a concrete input. -/
theorem computeRankRow_ordering_wit :
    (FVal.num 1 ∈ [FVal.num 1, FVal.num 2] ∧ FVal.num 1 ≠ FVal.nan) ∧
    (1 ≤ (computeRankRow (FVal.num 1) [FVal.num 1, FVal.num 2]).best ∧
     ((computeRankRow (FVal.num 1) [FVal.num 1, FVal.num 2]).best : ℚ) ≤
       (computeRankRow (FVal.num 1) [FVal.num 1, FVal.num 2]).avg ∧
     (computeRankRow (FVal.num 1) [FVal.num 1, FVal.num 2]).avg ≤
       ((computeRankRow (FVal.num 1) [FVal.num 1, FVal.num 2]).worst : ℚ) ∧
     1 ≤ (computeRankRow (FVal.num 1) [FVal.num 1, FVal.num 2]).worst) :=
  ⟨⟨by decide, by decide⟩, computeRankRow_ordering _ _ (by decide) (by decide)⟩

/-- C9: if no candidate scores strictly above the true score and
exactly `m` candidates tie with it (IEEE equality), then
`worst - best = m - 1`. -/
theorem computeRankRow_tie (t : FVal) (row : List FVal) (m : ℕ)
    (hmax : ∀ s ∈ row, FVal.fgt s t = false)
    (hm : row.countP (fun s => FVal.feq s t) = m)
    (_hm1 : 1 ≤ m) :
    ((computeRankRow t row).worst : ℤ) - ((computeRankRow t row).best : ℤ) =
      (m : ℤ) - 1 := by
  have hbest : row.countP (fun s => FVal.fgt s t) = 0 :=
    List.countP_eq_zero.mpr (fun s hs => by simp [hmax s hs])
  have hworst : row.countP (fun s => FVal.fge s t) = m := by
    rw [← hm]
    apply List.countP_congr
    intro s hs
    rw [FVal.fge_eq_fgt_or_feq, hmax s hs]
    simp
  simp only [computeRankRow, hbest, hworst]
  push_cast
  ring

/-- Witness for `computeRankRow_tie` at a concrete input. -/
theorem computeRankRow_tie_wit :
    ((∀ s ∈ [FVal.num 5, FVal.num 5, FVal.num 3],
        FVal.fgt s (FVal.num 5) = false) ∧
     [FVal.num 5, FVal.num 5, FVal.num 3].countP
        (fun s => FVal.feq s (FVal.num 5)) = 2 ∧ 1 ≤ 2) ∧
    ((computeRankRow (FVal.num 5) [FVal.num 5, FVal.num 5, FVal.num 3]).worst : ℤ) -
      ((computeRankRow (FVal.num 5) [FVal.num 5, FVal.num 5, FVal.num 3]).best : ℤ) =
      (2 : ℤ) - 1 :=
  ⟨⟨by decide, by decide, by decide⟩,
    computeRankRow_tie _ _ 2 (by decide) (by decide) (by decide)⟩

/-- C2 (amended): NaN entries never affect any of the computed rank
values nor the finite-entry count (dropping them leaves
`compute_rank_from_scores` unchanged), and the concrete example from
the spec holds: `true_score=5`, `all_scores=[5, 7, NaN, 3]` gives
`best=2`, `worst=2`, `n_finite=3`.  (Non-finite entries other than
NaN, i.e. infinities, do affect `best`/`worst`, see the
counterexample.) -/
theorem computeRankRow_nan_masked :
    (∀ (t : FVal) (row : List FVal),
      computeRankRow t (row.filter (fun s => !FVal.isNan s)) =
        computeRankRow t row ∧
      number_of_options (row.filter (fun s => !FVal.isNan s)) =
        number_of_options row) ∧
    ((computeRankRow (FVal.num 5)
        [FVal.num 5, FVal.num 7, FVal.nan, FVal.num 3]).best = 2 ∧
     (computeRankRow (FVal.num 5)
        [FVal.num 5, FVal.num 7, FVal.nan, FVal.num 3]).worst = 2 ∧
     number_of_options [FVal.num 5, FVal.num 7, FVal.nan, FVal.num 3] = 3) := by
  constructor
  · intro t row
    have hA : (row.filter (fun s => !FVal.isNan s)).countP
        (fun s => FVal.fgt s t) = row.countP (fun s => FVal.fgt s t) := by
      rw [List.countP_filter]
      apply List.countP_congr
      intro s _
      cases s <;> simp [FVal.isNan, FVal.fgt_nan_left]
    have hB : (row.filter (fun s => !FVal.isNan s)).countP
        (fun s => FVal.fge s t) = row.countP (fun s => FVal.fge s t) := by
      rw [List.countP_filter]
      apply List.countP_congr
      intro s _
      cases s <;> simp [FVal.isNan, FVal.fge_nan_left]
    have hC : (row.filter (fun s => !FVal.isNan s)).countP FVal.isfinite =
        row.countP FVal.isfinite := by
      rw [List.countP_filter]
      apply List.countP_congr
      intro s _
      cases s <;> simp [FVal.isNan, FVal.isfinite]
    refine ⟨?_, ?_⟩
    · simp only [computeRankRow, number_of_options, hA, hB, hC]
    · simp only [number_of_options, hC]
  · exact ⟨by decide, by decide, by decide⟩

/-- C2 counterexample to the claim as stated: a `+inf` entry is
non-finite yet does affect the best rank (removing non-finite entries
changes `best` from 2 to 1). -/
theorem computeRankRow_nonfinite_cex :
    FVal.isfinite FVal.inf = false ∧
    (computeRankRow (FVal.num 0)
        (([FVal.num 0, FVal.inf]).filter FVal.isfinite)).best ≠
      (computeRankRow (FVal.num 0) [FVal.num 0, FVal.inf]).best := by
  decide

/-- C6 (amended): for a row with zero finite entries the expected
random rank is `(0+1)/2 = 1/2`, so the adjusted rank is the finite
value `2 * avg` — there is no division by zero and no NaN. -/
theorem computeRankRow_adj_no_finite (t : FVal) (row : List FVal)
    (h : number_of_options row = 0) :
    (computeRankRow t row).adj =
      FVal.num (2 * (computeRankRow t row).avg) ∧
    (computeRankRow t row).adj ≠ FVal.nan := by
  simp only [computeRankRow, h]
  constructor
  · norm_num [FVal.fdiv]
    ring
  · norm_num [FVal.fdiv]
    exact fun h => FVal.noConfusion h

/-- C6 counterexample to the claim as stated: with `n_finite = 0` the
adjusted rank is the finite value 1, not a NaN sentinel. -/
theorem computeRankRow_adj_cex :
    number_of_options [FVal.nan] = 0 ∧
    (computeRankRow (FVal.num 5) [FVal.nan]).adj = FVal.num 1 ∧
    FVal.num 1 ≠ FVal.nan := by
  refine ⟨by decide, ?_, by decide⟩
  norm_num [computeRankRow, number_of_options, List.countP_cons,
    List.countP_nil, FVal.fge, FVal.fgt, FVal.isfinite, FVal.fdiv]

/-- Witness for `computeRankRow_adj_no_finite` at a concrete input. -/
theorem computeRankRow_adj_no_finite_wit :
    number_of_options [FVal.nan] = 0 ∧
    ((computeRankRow (FVal.num 5) [FVal.nan]).adj =
       FVal.num (2 * (computeRankRow (FVal.num 5) [FVal.nan]).avg) ∧
     (computeRankRow (FVal.num 5) [FVal.nan]).adj ≠ FVal.nan) :=
  ⟨by decide, computeRankRow_adj_no_finite _ _ (by decide)⟩

/-- `MappedTriples`: an opaque batch of (head, relation, tail) index
triples; `process_*_scores_` receives it but never reads it. -/
def MappedTriples : Type := List (ℤ × ℤ × ℤ)

/-- The aggregated results container (lines 98-130).  The three
per-rank-type dictionaries always carry the keys `best`, `worst`,
`avg`, so they are modelled as total maps on rank-type names; the
`hits_at_k` inner dictionary has a run-time key set, modelled as a key
list (`hits_at_k_keys`, its iteration order) together with its lookup
function (`hits_at_k_val`). -/
structure RankBasedMetricResults where
  mean_rank : String → FVal
  mean_reciprocal_rank : String → FVal
  hits_at_k_keys : String → List ℤ
  hits_at_k_val : String → ℤ → FVal
  adjusted_mean_rank : FVal

/-- `RANK_TYPES = {RANK_BEST, RANK_WORST, RANK_AVERAGE}` (line 28):
the `adj` kind is deliberately not a member. -/
def RANK_TYPES : List String := ["best", "worst", "avg"]

/-- Evaluator state (lines 183-198): configured `ks`, the `filtered`
flag, and the `ranks` defaultdict mapping rank-kind name to the list
of accumulated rank values. -/
structure RankBasedEvaluator where
  ks : List ℤ
  filtered : Bool
  ranks : List (String × List FVal)

/-- `RankBasedEvaluator.__init__`: `ks` defaults to `(1, 3, 5, 10)`;
the rank dictionary starts empty. -/
def RankBasedEvaluator.init (ks : Option (List ℤ)) (filtered : Bool) :
    RankBasedEvaluator :=
  { ks := ks.getD [1, 3, 5, 10], filtered := filtered, ranks := [] }

/-- `dict.get(key)`: lookup without inserting a default. -/
def dictGet : List (String × List FVal) → String → Option (List FVal)
  | [], _ => none
  | (k', l) :: rest, k => if k' = k then some l else dictGet rest k

/-- `self.ranks[k].extend(vs)` on a `defaultdict(list)`: extend the
existing entry, or create the key with `vs` (inserted last). -/
def dictExtend : List (String × List FVal) → String → List FVal →
    List (String × List FVal)
  | [], k, vs => [(k, vs)]
  | (k', l) :: rest, k, vs =>
      if k' = k then (k', l ++ vs) :: rest
      else (k', l) :: dictExtend rest k vs

/-- `compute_rank_from_scores` (lines 32-95) at tensor level.
`true_score` has shape `(batch_size, 1)` (one scalar per row, the
trailing singleton broadcasts along candidates); `all_scores` has one
row of candidate scores per example.  Torch broadcasting of dimension
0 applies: equal sizes pair rows, a size of 1 repeats that side, and
any other disagreement raises a RuntimeError. -/
def compute_rank_from_scores (true_score : List FVal)
    (all_scores : List (List FVal)) : Except String (List RankRow) :=
  if true_score.length = all_scores.length then
    .ok ((true_score.zip all_scores).map fun p => computeRankRow p.1 p.2)
  else if true_score.length = 1 then
    .ok (all_scores.map fun row => computeRankRow (true_score.headD FVal.nan) row)
  else if all_scores.length = 1 then
    .ok (true_score.map fun t => computeRankRow t (all_scores.headD []))
  else
    .error "The size of tensor a must match the size of tensor b at non-singleton dimension 0"

/-- The four `extend` operations of `_update_ranks_` (lines 214-215),
in the iteration order of the returned dict: best, worst, avg, adj.
`best`/`worst` are integer tensors whose `tolist()` yields integers;
they are stored as (exact) float values, as `avg`. -/
def updateRanksDict (d : List (String × List FVal)) (rows : List RankRow) :
    List (String × List FVal) :=
  dictExtend
    (dictExtend
      (dictExtend
        (dictExtend d "best" (rows.map fun r => FVal.num r.best))
        "worst" (rows.map fun r => FVal.num r.worst))
      "avg" (rows.map fun r => FVal.num r.avg))
    "adj" (rows.map fun r => r.adj)

/-- `_update_ranks_` (lines 200-215): compute batch ranks and extend
each rank kind's accumulation list; a broadcasting error surfaces. -/
def _update_ranks_ (e : RankBasedEvaluator) (true_scores : List FVal)
    (all_scores : List (List FVal)) : Except String RankBasedEvaluator :=
  (compute_rank_from_scores true_scores all_scores).map fun rows =>
    { e with ranks := updateRanksDict e.ranks rows }

/-- `process_tail_scores_` (lines 217-224): `hrt_batch` and
`dense_positive_mask` are accepted and ignored. -/
def RankBasedEvaluator.process_tail_scores_ (e : RankBasedEvaluator)
    (hrt_batch : MappedTriples) (true_scores : List FVal)
    (scores : List (List FVal))
    (dense_positive_mask : Option (List (List Bool))) :
    Except String RankBasedEvaluator :=
  _update_ranks_ e true_scores scores

/-- `process_head_scores_` (lines 226-233): identical to the tail
variant, same accumulation sink. -/
def RankBasedEvaluator.process_head_scores_ (e : RankBasedEvaluator)
    (hrt_batch : MappedTriples) (true_scores : List FVal)
    (scores : List (List FVal))
    (dense_positive_mask : Option (List (List Bool))) :
    Except String RankBasedEvaluator :=
  _update_ranks_ e true_scores scores

/-- `np.asarray(self.ranks.get(rank_type), dtype=np.float64)`
(line 241): a present key yields its value list; an absent key yields
`np.asarray(None)`, a 0-d array holding a single NaN. -/
def npArray : Option (List FVal) → List FVal
  | none => [FVal.nan]
  | some l => l

/-- `np.mean` over a float64 array: NaN on an empty array, otherwise
the sum divided by the length (NaN-propagating). -/
def npMean (l : List FVal) : FVal :=
  if l.length = 0 then FVal.nan
  else FVal.fdiv (l.foldl FVal.fadd (FVal.num 0)) (FVal.num l.length)

/-- `np.mean(ranks <= k)` (line 243): the fraction of entries `<= k`
(NaN entries compare false); NaN on an empty array. -/
def npMeanLe (k : ℤ) (l : List FVal) : FVal :=
  if l.length = 0 then FVal.nan
  else FVal.num ((l.countP fun v => FVal.fleZ v k : ℚ) / (l.length : ℚ))

/-- `finalize` (lines 235-260): aggregate every rank kind, then clear
the accumulation buffers; returns the results container and the
evaluator in its post-`clear` state. -/
def RankBasedEvaluator.finalize (e : RankBasedEvaluator) :
    RankBasedMetricResults × RankBasedEvaluator :=
  let arr : String → List FVal := fun rt => npArray (dictGet e.ranks rt)
  ({ mean_rank := fun rt => npMean (arr rt),
     mean_reciprocal_rank := fun rt => npMean ((arr rt).map FVal.frecip),
     hits_at_k_keys := fun _ => e.ks,
     hits_at_k_val := fun rt k => npMeanLe k (arr rt),
     adjusted_mean_rank := npMean (arr "adj") },
   { e with ranks := [] })

/-- C10: the accumulated state after `process_tail_scores_` (resp.
`process_head_scores_`) is a function of `true_scores` and `scores`
alone — the `hrt_batch` and `dense_positive_mask` arguments never
influence it. -/
theorem process_scores_ignore_extras (e : RankBasedEvaluator)
    (hrt1 hrt2 : MappedTriples) (ts : List FVal) (ss : List (List FVal))
    (m1 m2 : Option (List (List Bool))) :
    e.process_tail_scores_ hrt1 ts ss m1 = e.process_tail_scores_ hrt2 ts ss m2 ∧
    e.process_head_scores_ hrt1 ts ss m1 = e.process_head_scores_ hrt2 ts ss m2 :=
  ⟨rfl, rfl⟩

/-- C8 counterexample to the claim as stated: a true-score batch of
size 1 against an all-scores batch of size 2 has disagreeing batch
dimensions, yet processing succeeds (torch broadcasting repeats the
singleton side) instead of failing. -/
theorem process_shape_cex :
    ([FVal.num 5].length ≠
      ([[FVal.num 0, FVal.num 7], [FVal.num 9, FVal.num 9]] :
        List (List FVal)).length) ∧
    ((RankBasedEvaluator.init none true).process_tail_scores_
        ([] : MappedTriples) [FVal.num 5]
        [[FVal.num 0, FVal.num 7], [FVal.num 9, FVal.num 9]] none).isOk = true := by
  exact ⟨by decide, rfl⟩

/-- C8 (amended): processing fails (with the torch broadcasting
error, which surfaces to the caller) exactly when the two batch
dimensions disagree and neither of them is 1; when one of them is 1,
broadcasting silently produces rank values instead. -/
theorem process_shape_error_iff (e : RankBasedEvaluator) (hrt : MappedTriples)
    (ts : List FVal) (ss : List (List FVal)) (m : Option (List (List Bool))) :
    (∃ msg, e.process_tail_scores_ hrt ts ss m = .error msg) ↔
      (ts.length ≠ ss.length ∧ ts.length ≠ 1 ∧ ss.length ≠ 1) := by
  unfold RankBasedEvaluator.process_tail_scores_ _update_ranks_
    compute_rank_from_scores
  split_ifs with h1 h2 h3 <;> simp_all [Except.map]

/-- Witness for `process_shape_error_iff` at a concrete mismatched
input (batch sizes 2 and 3). -/
theorem process_shape_error_iff_wit :
    ∃ msg, ((RankBasedEvaluator.init none true).process_tail_scores_
      ([] : MappedTriples) [FVal.num 1, FVal.num 2]
      ([[], [], []] : List (List FVal)) none) = .error msg :=
  (process_shape_error_iff _ _ _ _ _).mpr (by decide)

/-- `np.mean(asarray(None) <= k)`: the 0-d NaN array compares false,
so the mean of the boolean array is 0.0, not NaN. -/
theorem npMeanLe_nan (k : ℤ) : npMeanLe k [FVal.nan] = FVal.num 0 := by
  norm_num [npMeanLe, List.countP_cons, List.countP_nil, FVal.fleZ]

/-- C3 (amended): a second `finalize` without intervening processing
does not crash; `mean_rank`, `mean_reciprocal_rank` and
`adjusted_mean_rank` are NaN (from the 0-d NaN array
`np.asarray(None)`), but every `hits_at_k` entry is 0.0, not NaN,
because `NaN <= k` is false. -/
theorem finalize_twice (e : RankBasedEvaluator) (rt : String) (k : ℤ) :
    ((e.finalize.2).finalize.1.mean_rank rt = FVal.nan) ∧
    ((e.finalize.2).finalize.1.mean_reciprocal_rank rt = FVal.nan) ∧
    ((e.finalize.2).finalize.1.adjusted_mean_rank = FVal.nan) ∧
    ((e.finalize.2).finalize.1.hits_at_k_val rt k = FVal.num 0) ∧
    ((e.finalize.2).finalize.1.hits_at_k_keys rt = e.ks) :=
  ⟨rfl, rfl, rfl, npMeanLe_nan k, rfl⟩

/-- C3 counterexample to the claim as stated: after processing one
batch and finalizing, a second `finalize` reports `hits_at_k = 0.0`
for the `avg` rank kind at `k = 1` — a value that is not NaN. -/
theorem finalize_twice_cex :
    (((RankBasedEvaluator.init none true).process_tail_scores_
        ([] : MappedTriples) [FVal.num 3] [[FVal.num 3]] none).map fun e1 =>
      ((e1.finalize.2).finalize.1.hits_at_k_val "avg" 1)) =
      .ok (FVal.num 0) ∧
    FVal.num 0 ≠ FVal.nan := by
  constructor
  · show Except.ok (npMeanLe 1 [FVal.nan]) = Except.ok (FVal.num 0)
    rw [npMeanLe_nan]
  · decide

/-- The rank rows of a batch whose two batch dimensions agree: one
row of ranks per (true score, candidate scores) pair. -/
def batchRows (ts : List FVal) (ss : List (List FVal)) : List RankRow :=
  (ts.zip ss).map fun p => computeRankRow p.1 p.2

/-- Sequentially feed a list of (true_scores, all_scores) batches to
`process_tail_scores_`. -/
def processBatchesTail (e : RankBasedEvaluator)
    (bs : List (List FVal × List (List FVal))) :
    Except String RankBasedEvaluator :=
  bs.foldlM
    (fun acc b => acc.process_tail_scores_ ([] : MappedTriples) b.1 b.2 none) e

/-- The value list a rank kind contributes per batch (empty for a
string that is not a rank kind). -/
def selRows (rt : String) (rows : List RankRow) : List FVal :=
  if rt = "best" then rows.map fun r => FVal.num r.best
  else if rt = "worst" then rows.map fun r => FVal.num r.worst
  else if rt = "avg" then rows.map fun r => FVal.num r.avg
  else if rt = "adj" then rows.map fun r => r.adj
  else []

/-- Extend-or-create on the optional value of one dict key. -/
def optAppend (o : Option (List FVal)) (vs : List FVal) :
    Option (List FVal) :=
  some (o.getD [] ++ vs)

theorem update_ranks_ok (e : RankBasedEvaluator) {ts : List FVal}
    {ss : List (List FVal)} (h : ts.length = ss.length) :
    _update_ranks_ e ts ss =
      .ok { e with ranks := updateRanksDict e.ranks (batchRows ts ss) } := by
  simp [_update_ranks_, compute_rank_from_scores, h, batchRows, Except.map]

theorem dictGet_dictExtend (d : List (String × List FVal)) (k k' : String)
    (vs : List FVal) :
    dictGet (dictExtend d k vs) k' =
      if k' = k then some ((dictGet d k).getD [] ++ vs)
      else dictGet d k' := by
  induction d with
  | nil =>
    by_cases h : k = k'
    · subst h
      simp [dictExtend, dictGet]
    · simp [dictExtend, dictGet, h, Ne.symm h]
  | cons p rest ih =>
    obtain ⟨k0, l0⟩ := p
    by_cases h0 : k0 = k <;> by_cases h : k0 = k'
    · subst h0; subst h
      simp [dictExtend, dictGet]
    · subst h0
      simp [dictExtend, dictGet, h, Ne.symm h]
    · subst h
      simp [dictExtend, dictGet, h0]
    · simp [dictExtend, dictGet, h0, h, Ne.symm h, ih]

theorem dictGet_updateRanksDict (d : List (String × List FVal))
    (rows : List RankRow) (rt : String) :
    dictGet (updateRanksDict d rows) rt =
      if rt = "best" ∨ rt = "worst" ∨ rt = "avg" ∨ rt = "adj"
      then optAppend (dictGet d rt) (selRows rt rows)
      else dictGet d rt := by
  by_cases h1 : rt = "best" <;> by_cases h2 : rt = "worst" <;>
    by_cases h3 : rt = "avg" <;> by_cases h4 : rt = "adj" <;>
    simp_all [updateRanksDict, dictGet_dictExtend, optAppend, selRows]

theorem selRows_append (rt : String) (r1 r2 : List RankRow) :
    selRows rt (r1 ++ r2) = selRows rt r1 ++ selRows rt r2 := by
  unfold selRows
  split_ifs <;> simp

theorem selRows_nil (rt : String) : selRows rt [] = [] := by
  unfold selRows
  split_ifs <;> simp

theorem optAppend_optAppend (o : Option (List FVal)) (a b : List FVal) :
    optAppend (optAppend o a) b = optAppend o (a ++ b) := by
  simp [optAppend]

/-- The aggregation `finalize` applies to one rank kind's buffer. -/
def meanOf (o : Option (List FVal)) : FVal :=
  npMean (npArray o)

theorem meanOf_optAppend_nil (o : Option (List FVal)) :
    meanOf (optAppend o []) = meanOf o := by
  cases o <;> simp [optAppend, meanOf, npArray]
  rfl

theorem process_tail_eq_update (e : RankBasedEvaluator) (hrt : MappedTriples)
    (ts : List FVal) (ss : List (List FVal))
    (m : Option (List (List Bool))) :
    e.process_tail_scores_ hrt ts ss m = _update_ranks_ e ts ss := rfl

theorem processBatchesTail_ok (e : RankBasedEvaluator)
    (bs : List (List FVal × List (List FVal)))
    (h : ∀ b ∈ bs, (Prod.fst b).length = (Prod.snd b).length) :
    processBatchesTail e bs =
      .ok { e with ranks :=
        (bs.foldl (fun d b => updateRanksDict d (batchRows b.1 b.2)) e.ranks) } := by
  induction bs generalizing e with
  | nil => rfl
  | cons b bs ih =>
    have hb := h b (List.mem_cons_self b bs)
    have hrest : ∀ b' ∈ bs, (Prod.fst b').length = (Prod.snd b').length :=
      fun b' hb' => h b' (List.mem_cons_of_mem b hb')
    rw [processBatchesTail, List.foldlM_cons, process_tail_eq_update,
      update_ranks_ok e hb]
    show processBatchesTail
      { e with ranks := updateRanksDict e.ranks (batchRows b.1 b.2) } bs = _
    rw [ih _ hrest]
    rfl

theorem flatten_length_eq (bs : List (List FVal × List (List FVal)))
    (h : ∀ b ∈ bs, (Prod.fst b).length = (Prod.snd b).length) :
    (bs.map Prod.fst).flatten.length = (bs.map Prod.snd).flatten.length := by
  induction bs with
  | nil => rfl
  | cons b bs ih =>
    simp only [List.map_cons, List.flatten_cons, List.length_append]
    rw [h b (List.mem_cons_self b bs),
      ih (fun b' hb' => h b' (List.mem_cons_of_mem b hb'))]

theorem batchRows_flatten (bs : List (List FVal × List (List FVal)))
    (h : ∀ b ∈ bs, (Prod.fst b).length = (Prod.snd b).length) :
    batchRows (bs.map Prod.fst).flatten (bs.map Prod.snd).flatten =
      ((bs.map fun b => batchRows b.1 b.2).flatten) := by
  induction bs with
  | nil => rfl
  | cons b bs ih =>
    have hb := h b (List.mem_cons_self b bs)
    have hrest : ∀ b' ∈ bs, (Prod.fst b').length = (Prod.snd b').length :=
      fun b' hb' => h b' (List.mem_cons_of_mem b hb')
    simp only [List.map_cons, List.flatten_cons, batchRows]
    rw [List.zip_append hb, List.map_append]
    congr 1
    exact ih hrest

theorem dictGet_foldl_update (bs : List (List FVal × List (List FVal)))
    (d : List (String × List FVal)) (rt : String) :
    dictGet (bs.foldl (fun d b => updateRanksDict d (batchRows b.1 b.2)) d) rt =
      if rt = "best" ∨ rt = "worst" ∨ rt = "avg" ∨ rt = "adj" then
        (if bs = [] then dictGet d rt
         else optAppend (dictGet d rt)
           (selRows rt ((bs.map fun b => batchRows b.1 b.2).flatten)))
      else dictGet d rt := by
  induction bs generalizing d with
  | nil => simp
  | cons b bs ih =>
    simp only [List.foldl_cons]
    rw [ih (updateRanksDict d (batchRows b.1 b.2))]
    by_cases hkey : rt = "best" ∨ rt = "worst" ∨ rt = "avg" ∨ rt = "adj"
    · simp only [if_pos hkey, dictGet_updateRanksDict, if_pos hkey]
      by_cases hbs : bs = []
      · subst hbs
        simp [selRows_append, selRows_nil]
      · simp only [if_neg hbs, List.cons_ne_nil, if_neg (by simp : ¬(b :: bs = []))]
        rw [optAppend_optAppend, ← selRows_append]
        simp [List.map_cons, List.flatten_cons]
    · simp only [if_neg hkey, dictGet_updateRanksDict]

theorem meanOf_foldl_eq (bs : List (List FVal × List (List FVal)))
    (d : List (String × List FVal)) (rt : String) :
    meanOf (dictGet
        (bs.foldl (fun d b => updateRanksDict d (batchRows b.1 b.2)) d) rt) =
      meanOf (dictGet
        (updateRanksDict d ((bs.map fun b => batchRows b.1 b.2).flatten)) rt) := by
  rw [dictGet_foldl_update, dictGet_updateRanksDict]
  by_cases hkey : rt = "best" ∨ rt = "worst" ∨ rt = "avg" ∨ rt = "adj"
  · simp only [if_pos hkey]
    by_cases hbs : bs = []
    · subst hbs
      simp only [if_pos rfl, List.map_nil, List.flatten_nil, selRows_nil]
      exact (meanOf_optAppend_nil _).symm
    · simp only [if_neg hbs]
  · simp only [if_neg hkey]

/-- C7: for every rank kind, processing a list of batches and then
finalizing yields the same `mean_rank` as processing all the batches
concatenated into one and finalizing. -/
theorem process_batches_round_trip (e : RankBasedEvaluator)
    (bs : List (List FVal × List (List FVal))) (rt : String)
    (h : ∀ b ∈ bs, (Prod.fst b).length = (Prod.snd b).length) :
    (processBatchesTail e bs).map
        (fun e2 => (RankBasedEvaluator.finalize e2).1.mean_rank rt) =
      (e.process_tail_scores_ ([] : MappedTriples) (bs.map Prod.fst).flatten
          (bs.map Prod.snd).flatten none).map
        (fun e2 => (RankBasedEvaluator.finalize e2).1.mean_rank rt) := by
  rw [process_tail_eq_update, update_ranks_ok e (flatten_length_eq bs h),
    processBatchesTail_ok e bs h]
  simp only [Except.map]
  congr 1
  rw [batchRows_flatten bs h]
  exact meanOf_foldl_eq bs e.ranks rt

/-- Witness for `process_batches_round_trip` at two concrete batches. -/
theorem process_batches_round_trip_wit :
    (∀ b ∈ ([([FVal.num 1], [[FVal.num 1]]),
             ([FVal.num 2], [[FVal.num 2, FVal.num 1]])] :
        List (List FVal × List (List FVal))),
      (Prod.fst b).length = (Prod.snd b).length) ∧
    ((processBatchesTail (RankBasedEvaluator.init none true)
        [([FVal.num 1], [[FVal.num 1]]),
         ([FVal.num 2], [[FVal.num 2, FVal.num 1]])]).map
        (fun e2 => (RankBasedEvaluator.finalize e2).1.mean_rank "avg") =
      ((RankBasedEvaluator.init none true).process_tail_scores_
          ([] : MappedTriples)
          (([([FVal.num 1], [[FVal.num 1]]),
             ([FVal.num 2], [[FVal.num 2, FVal.num 1]])].map Prod.fst).flatten)
          (([([FVal.num 1], [[FVal.num 1]]),
             ([FVal.num 2], [[FVal.num 2, FVal.num 1]])].map Prod.snd).flatten)
          none).map
        (fun e2 => (RankBasedEvaluator.finalize e2).1.mean_rank "avg")) :=
  ⟨by decide, process_batches_round_trip _ _ _ (by decide)⟩

/-- Digit value of a decimal digit character. -/
def dval (c : Char) : ℕ := c.toNat - '0'.toNat

/-- The ASCII whitespace Python's `int(str)` strips. -/
def isWsChar (c : Char) : Bool :=
  c.toNat = 32 || c.toNat = 9 || c.toNat = 10 || c.toNat = 13 ||
  c.toNat = 11 || c.toNat = 12

/-- Strip leading and trailing whitespace. -/
def stripChars (cs : List Char) : List Char :=
  ((cs.dropWhile isWsChar).reverse.dropWhile isWsChar).reverse

/-- Rest of a digit run in Python's `int` grammar (a single
underscore is allowed between two digits). -/
def pyDigitsTail (a : ℕ) : List Char → Option ℕ
  | [] => some a
  | c :: rest =>
    if c = '_' then
      match rest with
      | [] => none
      | c2 :: rest2 =>
        if c2.isDigit then pyDigitsTail (10 * a + dval c2) rest2 else none
    else if c.isDigit then pyDigitsTail (10 * a + dval c) rest
    else none

/-- A nonempty digit run (Python `int` digit grammar). -/
def pyDigits : List Char → Option ℕ
  | [] => none
  | c :: rest => if c.isDigit then pyDigitsTail (dval c) rest else none

/-- Python's `int(str)` (line 155's `int(k)`): optional surrounding
whitespace, an optional sign, then a digit run; any other input
raises `ValueError`. -/
def pyIntChars (cs : List Char) : Option ℤ :=
  let t := stripChars cs
  if t.headD ' ' = '+' then (pyDigits t.tail).map (fun n => (n : ℤ))
  else if t.headD ' ' = '-' then (pyDigits t.tail).map (fun n => -(n : ℤ))
  else (pyDigits t).map (fun n => (n : ℤ))

/-- `str.split('.')` on the underlying character list. -/
def splitDotsC : List Char → List (List Char)
  | [] => [[]]
  | c :: rest =>
    let r := splitDotsC rest
    if c = '.' then [] :: r
    else (c :: r.headD []) :: r.tail

/-- The two failure modes `get_metric` can raise: `ValueError` (with
its message) or `KeyError` from a missing hits@k key. -/
inductive PyErr where
  | valueError : String → PyErr
  | keyError : PyErr
deriving DecidableEq

/-- Does the call fail with an invalid-name (`ValueError`) error? -/
def isValueError : Except PyErr FVal → Bool
  | .error (.valueError _) => true
  | _ => false

/-- The hits@k lookup tail of `get_metric` (lines 150-156): parse the
`<k>` part (the literal `k` means 10), then index the per-rank-type
hits dictionary. -/
def hitsLookup (r : RankBasedMetricResults) (rt : String)
    (kcs : List Char) : Except PyErr FVal :=
  match (if kcs = ['k'] then some (10 : ℤ) else pyIntChars kcs) with
  | none => .error (.valueError "invalid literal for int() with base 10")
  | some k =>
      if k ∈ r.hits_at_k_keys rt then .ok (r.hits_at_k_val rt k)
      else .error .keyError

/-- The body of `get_metric` after the rank type and metric substring
have been determined (lines 144-158). -/
def getMetricTyped (r : RankBasedMetricResults) (rt : String)
    (mcs : List Char) (name : String) : Except PyErr FVal :=
  if rt ∈ RANK_TYPES then
    if mcs = "mean_rank".toList then .ok (r.mean_rank rt)
    else if mcs = "mean_reciprocal_rank".toList then
      .ok (r.mean_reciprocal_rank rt)
    else if "hits_at_".toList.isPrefixOf mcs then hitsLookup r rt (mcs.drop 8)
    else if "hits@".toList.isPrefixOf mcs then hitsLookup r rt (mcs.drop 5)
    else .error (.valueError ("Invalid metric name: " ++ name))
  else .error (.valueError ("Invalid rank type: " ++ rt))

/-- `RankBasedMetricResults.get_metric` (lines 132-158):
`adjusted_mean_rank` is served before any parsing; otherwise the name
is split on dots (zero dots defaults the rank type to `avg`, one dot
separates rank type and metric, more raise `ValueError`). -/
def RankBasedMetricResults.get_metric (r : RankBasedMetricResults)
    (name : String) : Except PyErr FVal :=
  if name = "adjusted_mean_rank" then .ok r.adjusted_mean_rank
  else
    let cs := name.toList
    if cs.count '.' = 0 then getMetricTyped r "avg" cs name
    else if cs.count '.' = 1 then
      getMetricTyped r ((splitDotsC cs).getD 0 []).asString
        ((splitDotsC cs).getD 1 []) name
    else .error (.valueError ("Malformed metric name: " ++ name))

/-- `RankBasedMetricResults.to_flat_dict` (lines 160-169): the
`avg.adjusted_mean_rank` entry plus, per rank type, the mean rank,
the mean reciprocal rank, and one `hits_at_<k>` entry per key. -/
def RankBasedMetricResults.to_flat_dict (r : RankBasedMetricResults) :
    List (String × FVal) :=
  ("avg.adjusted_mean_rank", r.adjusted_mean_rank) ::
  (RANK_TYPES.flatMap fun rt =>
    (rt ++ ".mean_rank", r.mean_rank rt) ::
    (rt ++ ".mean_reciprocal_rank", r.mean_reciprocal_rank rt) ::
    ((r.hits_at_k_keys rt).map fun k =>
      (rt ++ ".hits_at_" ++ toString k, r.hits_at_k_val rt k)))

/-- The ten decimal digit characters. -/
def decDigits : List Char := ['0', '1', '2', '3', '4', '5', '6', '7', '8', '9']

theorem digitChar_mem (m : ℕ) (h : m < 10) : Nat.digitChar m ∈ decDigits := by
  interval_cases m <;> decide

theorem dval_digitChar (m : ℕ) (h : m < 10) : dval (Nat.digitChar m) = m := by
  interval_cases m <;> decide

theorem toDigitsCore_mem : ∀ (f n : ℕ) (ds : List Char),
    (∀ c ∈ ds, c ∈ decDigits) →
    ∀ c ∈ Nat.toDigitsCore 10 f n ds, c ∈ decDigits := by
  intro f
  induction f with
  | zero =>
    intro n ds h c hc
    exact h c hc
  | succ f ih =>
    intro n ds h c hc
    have hds : ∀ c' ∈ Nat.digitChar (n % 10) :: ds, c' ∈ decDigits := by
      intro c' hc'
      rcases List.mem_cons.mp hc' with rfl | hcc
      · exact digitChar_mem _ (Nat.mod_lt _ (by norm_num))
      · exact h c' hcc
    simp only [Nat.toDigitsCore] at hc
    by_cases h0 : n / 10 = 0
    · rw [if_pos h0] at hc
      exact hds c hc
    · rw [if_neg h0] at hc
      exact ih (n / 10) _ hds c hc

theorem toDigits_mem (n : ℕ) : ∀ c ∈ Nat.toDigits 10 n, c ∈ decDigits := by
  intro c hc
  rw [Nat.toDigits] at hc
  exact toDigitsCore_mem _ _ _ (by simp) c hc

/-- Left fold computing the value of a decimal digit string, starting
from an accumulator. -/
def digitsValFrom (a : ℕ) (cs : List Char) : ℕ :=
  cs.foldl (fun x c => 10 * x + dval c) a

theorem toDigitsCore_val : ∀ (f n : ℕ) (ds : List Char), n < f →
    digitsValFrom 0 (Nat.toDigitsCore 10 f n ds) =
      List.foldl (fun x c => 10 * x + dval c) n ds := by
  intro f
  induction f with
  | zero =>
    intro n ds h
    exact absurd h (Nat.not_lt_zero n)
  | succ f ih =>
    intro n ds h
    simp only [Nat.toDigitsCore]
    by_cases h0 : n / 10 = 0
    · rw [if_pos h0]
      have hn : n % 10 = n := by omega
      simp only [digitsValFrom, List.foldl_cons]
      rw [dval_digitChar _ (Nat.mod_lt _ (by norm_num)), hn,
        Nat.mul_zero, Nat.zero_add]
    · rw [if_neg h0]
      have hdiv : n / 10 < n := Nat.div_lt_self (by omega) (by norm_num)
      rw [ih (n / 10) _ (by omega)]
      simp only [List.foldl_cons]
      have hstep : 10 * (n / 10) + dval (Nat.digitChar (n % 10)) = n := by
        rw [dval_digitChar _ (Nat.mod_lt _ (by norm_num))]
        omega
      rw [hstep]

theorem toDigits_val (n : ℕ) : digitsValFrom 0 (Nat.toDigits 10 n) = n := by
  rw [Nat.toDigits, toDigitsCore_val (n + 1) n [] (Nat.lt_succ_self n)]
  rfl

theorem toDigitsCore_ne_nil : ∀ (f n : ℕ) (ds : List Char),
    Nat.toDigitsCore 10 (f + 1) n ds ≠ [] := by
  intro f
  induction f with
  | zero =>
    intro n ds
    simp only [Nat.toDigitsCore]
    by_cases h0 : n / 10 = 0
    · simp [h0]
    · simp [h0, Nat.toDigitsCore]
  | succ f ih =>
    intro n ds
    simp only [Nat.toDigitsCore]
    by_cases h0 : n / 10 = 0
    · simp [h0]
    · rw [if_neg h0]
      exact ih _ _

theorem toDigits_ne_nil (n : ℕ) : Nat.toDigits 10 n ≠ [] := by
  rw [Nat.toDigits]
  exact toDigitsCore_ne_nil n n []

theorem mem_decDigits_isDigit : ∀ c ∈ decDigits, c.isDigit = true := by
  decide

theorem mem_decDigits_not_ws : ∀ c ∈ decDigits, isWsChar c = false := by
  decide

theorem mem_decDigits_ne : ∀ c ∈ decDigits,
    c ≠ '.' ∧ c ≠ '_' ∧ c ≠ 'k' ∧ c ≠ '+' ∧ c ≠ '-' := by
  decide

theorem pyDigitsTail_digits : ∀ (cs : List Char) (a : ℕ),
    (∀ c ∈ cs, c.isDigit = true) →
    pyDigitsTail a cs = some (digitsValFrom a cs) := by
  intro cs
  induction cs with
  | nil =>
    intro a _
    rfl
  | cons c rest ih =>
    intro a h
    have hc : c.isDigit = true := h c (List.mem_cons_self _ _)
    have hcu : ¬(c = '_') := by
      intro hh
      subst hh
      exact absurd hc (by decide)
    rw [pyDigitsTail.eq_def]
    simp only [if_neg hcu, if_pos hc]
    rw [ih _ (fun c' hc' => h c' (List.mem_cons_of_mem _ hc'))]
    rfl

theorem pyDigits_digits (cs : List Char) (hne : cs ≠ [])
    (h : ∀ c ∈ cs, c.isDigit = true) :
    pyDigits cs = some (digitsValFrom 0 cs) := by
  cases cs with
  | nil => exact absurd rfl hne
  | cons c rest =>
    have hc : c.isDigit = true := h c (List.mem_cons_self _ _)
    simp only [pyDigits, if_pos hc]
    rw [pyDigitsTail_digits _ _ (fun c' hc' => h c' (List.mem_cons_of_mem _ hc'))]
    simp [digitsValFrom]

theorem dropWhile_eq_self_of_none {p : Char → Bool} (cs : List Char)
    (h : ∀ c ∈ cs, p c = false) : cs.dropWhile p = cs := by
  cases cs with
  | nil => rfl
  | cons c rest =>
    rw [List.dropWhile_cons, if_neg]
    simp [h c (List.mem_cons_self _ _)]

theorem stripChars_eq_self (cs : List Char)
    (h : ∀ c ∈ cs, isWsChar c = false) : stripChars cs = cs := by
  unfold stripChars
  rw [dropWhile_eq_self_of_none cs h,
    dropWhile_eq_self_of_none cs.reverse
      (fun c hc => h c (List.mem_reverse.mp hc)),
    List.reverse_reverse]

theorem toString_int_ofNat (n : ℕ) :
    (toString (Int.ofNat n)).toList = Nat.toDigits 10 n := rfl

theorem toString_int_negSucc (m : ℕ) :
    (toString (Int.negSucc m)).toList = '-' :: Nat.toDigits 10 (m + 1) := rfl

/-- Every character of the decimal rendering of an integer is a digit
or a leading minus sign. -/
theorem toString_int_chars (k : ℤ) :
    ∀ c ∈ (toString k).toList, c ∈ decDigits ∨ c = '-' := by
  cases k with
  | ofNat n =>
    rw [toString_int_ofNat]
    exact fun c hc => Or.inl (toDigits_mem n c hc)
  | negSucc m =>
    rw [toString_int_negSucc]
    intro c hc
    rcases List.mem_cons.mp hc with rfl | hc'
    · exact Or.inr rfl
    · exact Or.inl (toDigits_mem _ c hc')

theorem toString_int_no_dot (k : ℤ) : '.' ∉ (toString k).toList := by
  intro hmem
  rcases toString_int_chars k _ hmem with h | h
  · exact absurd h (by decide)
  · exact absurd h (by decide)

theorem toString_int_ne_k (k : ℤ) : (toString k).toList ≠ ['k'] := by
  intro hk
  have : 'k' ∈ (toString k).toList := by
    rw [hk]
    exact List.mem_cons_self _ _
  rcases toString_int_chars k _ this with h | h
  · exact absurd h (by decide)
  · exact absurd h (by decide)

/-- Python's `int` parses back the decimal rendering of any integer. -/
theorem pyIntChars_toString (k : ℤ) :
    pyIntChars (toString k).toList = some k := by
  cases k with
  | ofNat n =>
    rw [toString_int_ofNat]
    have hmem := toDigits_mem n
    have hnw : ∀ c ∈ Nat.toDigits 10 n, isWsChar c = false :=
      fun c hc => mem_decDigits_not_ws c (hmem c hc)
    obtain ⟨c, rest, hcr⟩ := List.exists_cons_of_ne_nil (toDigits_ne_nil n)
    have hcd : c ∈ decDigits := hmem c (by rw [hcr]; exact List.mem_cons_self _ _)
    simp only [pyIntChars]
    rw [stripChars_eq_self _ hnw, hcr]
    rw [if_neg (by simp [(mem_decDigits_ne c hcd).2.2.2.1]),
      if_neg (by simp [(mem_decDigits_ne c hcd).2.2.2.2])]
    rw [← hcr, pyDigits_digits _ (toDigits_ne_nil n)
      (fun c' hc' => mem_decDigits_isDigit c' (hmem c' hc')), toDigits_val]
    rfl
  | negSucc m =>
    rw [toString_int_negSucc]
    have hmem := toDigits_mem (m + 1)
    have hnw : ∀ c ∈ '-' :: Nat.toDigits 10 (m + 1), isWsChar c = false := by
      intro c hc
      rcases List.mem_cons.mp hc with rfl | hc'
      · decide
      · exact mem_decDigits_not_ws c (hmem c hc')
    simp only [pyIntChars]
    rw [stripChars_eq_self _ hnw]
    have hplus : ¬(('-' :: Nat.toDigits 10 (m + 1)).headD ' ' = '+') := by
      simp
    have hminus : ('-' :: Nat.toDigits 10 (m + 1)).headD ' ' = '-' := by
      simp
    rw [if_neg hplus, if_pos hminus]
    show (pyDigits (Nat.toDigits 10 (m + 1))).map (fun n => -(n : ℤ)) = _
    rw [pyDigits_digits _ (toDigits_ne_nil (m + 1))
      (fun c' hc' => mem_decDigits_isDigit c' (hmem c' hc')), toDigits_val]
    simp [Int.negSucc_eq]

theorem splitDotsC_ne_nil (cs : List Char) : splitDotsC cs ≠ [] := by
  cases cs with
  | nil => simp [splitDotsC]
  | cons c rest =>
    simp only [splitDotsC]
    by_cases h : c = '.'
    · simp [h]
    · simp [h]

theorem splitDotsC_no_dot (cs : List Char) (h : '.' ∉ cs) :
    splitDotsC cs = [cs] := by
  induction cs with
  | nil => rfl
  | cons c rest ih =>
    have hc : ¬(c = '.') := by
      intro hh
      subst hh
      exact h (List.mem_cons_self _ _)
    have hrest : '.' ∉ rest := fun hh => h (List.mem_cons_of_mem _ hh)
    simp only [splitDotsC, if_neg hc, ih hrest]
    rfl

theorem splitDotsC_append (a b : List Char) (h : '.' ∉ a) :
    splitDotsC (a ++ '.' :: b) = a :: splitDotsC b := by
  induction a with
  | nil => simp [splitDotsC]
  | cons c a ih =>
    have hc : ¬(c = '.') := by
      intro hh
      subst hh
      exact h (List.mem_cons_self _ _)
    have ha : '.' ∉ a := fun hh => h (List.mem_cons_of_mem _ hh)
    simp only [List.cons_append, splitDotsC, if_neg hc]
    show (c :: (splitDotsC (a ++ '.' :: b)).headD []) ::
        (splitDotsC (a ++ '.' :: b)).tail = (c :: a) :: splitDotsC b
    rw [ih ha]
    rfl

theorem asString_toList (s : String) : s.toList.asString = s := rfl

theorem isPrefixOf_append_self (l t : List Char) :
    l.isPrefixOf (l ++ t) = true := by
  induction l with
  | nil => cases t <;> rfl
  | cons a l ih => simp [List.isPrefixOf, ih]

/-- Evaluating `get_metric` on a one-dot name assembled from a
dot-free rank type and a dot-free metric substring reaches the typed
lookup with exactly those two parts. -/
theorem get_metric_dotted (r : RankBasedMetricResults) (rt : String)
    (ms : List Char) (hdot : '.' ∉ rt.toList) (hdot2 : '.' ∉ ms) :
    r.get_metric (rt ++ ('.' :: ms).asString) =
      getMetricTyped r rt ms (rt ++ ('.' :: ms).asString) := by
  have hcount : (rt ++ ('.' :: ms).asString).toList.count '.' = 1 := by
    show (rt.toList ++ '.' :: ms).count '.' = 1
    rw [List.count_append, List.count_eq_zero.mpr hdot, List.count_cons]
    rw [List.count_eq_zero.mpr hdot2]
    simp
  have hne : (rt ++ ('.' :: ms).asString) ≠ "adjusted_mean_rank" := by
    intro hh
    have h2 := congrArg (fun s : String => s.toList.count '.') hh
    simp only at h2
    rw [hcount] at h2
    exact absurd h2 (by decide)
  have hsplit : splitDotsC ((rt ++ ('.' :: ms).asString).toList) =
      [rt.toList, ms] := by
    show splitDotsC (rt.toList ++ '.' :: ms) = [rt.toList, ms]
    rw [splitDotsC_append _ _ hdot, splitDotsC_no_dot _ hdot2]
  simp only [RankBasedMetricResults.get_metric, if_neg hne, hcount, hsplit]
  norm_num
  rfl

theorem getMetricTyped_hits (r : RankBasedMetricResults) (rt : String)
    (hmem : rt ∈ RANK_TYPES) (k : ℤ) (hk : k ∈ r.hits_at_k_keys rt)
    (name : String) :
    getMetricTyped r rt ("hits_at_".toList ++ (toString k).toList) name =
      .ok (r.hits_at_k_val rt k) := by
  have hm1 : ¬("hits_at_".toList ++ (toString k).toList = "mean_rank".toList) := by
    intro hh
    have h2 := congrArg (fun l => l.headD ' ') hh
    have h3 : 'h' = 'm' := h2
    exact absurd h3 (by decide)
  have hm2 : ¬("hits_at_".toList ++ (toString k).toList =
      "mean_reciprocal_rank".toList) := by
    intro hh
    have h2 := congrArg (fun l => l.headD ' ') hh
    have h3 : 'h' = 'm' := h2
    exact absurd h3 (by decide)
  have hpre : ("hits_at_".toList).isPrefixOf
      ("hits_at_".toList ++ (toString k).toList) = true :=
    isPrefixOf_append_self _ _
  have hdrop : ("hits_at_".toList ++ (toString k).toList).drop 8 =
      (toString k).toList := by
    rw [show (8 : ℕ) = ("hits_at_".toList).length from rfl, List.drop_left]
  simp only [getMetricTyped, if_pos hmem, if_neg hm1, if_neg hm2, hpre,
    if_true, hdrop]
  simp only [hitsLookup, if_neg (toString_int_ne_k k), pyIntChars_toString]
  rw [if_pos hk]

/-- C4 (amended): every key of `to_flat_dict` except
`avg.adjusted_mean_rank` is served identically by `get_metric`
(`get_metric("avg.adjusted_mean_rank")` instead raises an
invalid-metric-name error, see the counterexample), and
`get_metric("hits@k")` coincides with `get_metric("avg.hits_at_10")`. -/
theorem get_metric_flat_consistent :
    (∀ (r : RankBasedMetricResults), ∀ p ∈ r.to_flat_dict,
      p.1 ≠ "avg.adjusted_mean_rank" → r.get_metric p.1 = .ok p.2) ∧
    (∀ r : RankBasedMetricResults,
      r.get_metric "hits@k" = r.get_metric "avg.hits_at_10") := by
  constructor
  · intro r p hp hne
    simp only [RankBasedMetricResults.to_flat_dict, List.mem_cons] at hp
    rcases hp with rfl | hp
    · exact absurd rfl hne
    · rw [List.mem_flatMap] at hp
      obtain ⟨rt, hrt, hpin⟩ := hp
      have hrtcase : rt = "best" ∨ rt = "worst" ∨ rt = "avg" := by
        simpa [RANK_TYPES] using hrt
      have hdot : '.' ∉ rt.toList := by
        rcases hrtcase with rfl | rfl | rfl <;> decide
      simp only [List.mem_cons] at hpin
      rcases hpin with rfl | rfl | hpin
      · have := get_metric_dotted r rt "mean_rank".toList hdot (by decide)
        rw [show rt ++ ".mean_rank" = rt ++ ('.' :: "mean_rank".toList).asString
            from rfl, this]
        simp only [getMetricTyped, if_pos hrt]
        simp
      · have := get_metric_dotted r rt "mean_reciprocal_rank".toList hdot
          (by decide)
        rw [show rt ++ ".mean_reciprocal_rank" =
            rt ++ ('.' :: "mean_reciprocal_rank".toList).asString from rfl, this]
        simp only [getMetricTyped, if_pos hrt]
        simp
      · rw [List.mem_map] at hpin
        obtain ⟨k, hk, rfl⟩ := hpin
        have := get_metric_dotted r rt
          ("hits_at_".toList ++ (toString k).toList) hdot
          (by
            intro hmemdot
            rcases List.mem_append.mp hmemdot with h | h
            · exact absurd h (by decide)
            · exact toString_int_no_dot k h)
        have hdata : (rt ++ ".hits_at_" ++ toString k).data =
            (rt ++ ('.' :: ("hits_at_".toList ++
              (toString k).toList)).asString).data := by
          show (rt.data ++ ".hits_at_".data) ++ (toString k).data =
            rt.data ++ ('.' :: ("hits_at_".toList ++ (toString k).toList))
          rw [List.append_assoc]
          rfl
        have hname : rt ++ ".hits_at_" ++ toString k =
            rt ++ ('.' :: ("hits_at_".toList ++ (toString k).toList)).asString :=
          congrArg String.mk hdata
        rw [hname, this]
        exact getMetricTyped_hits r rt hrt k hk _
  · intro r
    rfl

/-- A valid `<k>` designator per the spec: the literal `k` or an
integer literal that Python's `int` accepts. -/
def isKDesig (kcs : List Char) : Bool :=
  (kcs == ['k']) || (pyIntChars kcs).isSome

/-- A recognized metric substring per the spec: `mean_rank`,
`mean_reciprocal_rank`, or a `hits_at_<k>` / `hits@<k>` designator. -/
def isMetricDesig (mcs : List Char) : Bool :=
  (mcs == "mean_rank".toList) || (mcs == "mean_reciprocal_rank".toList) ||
  ("hits_at_".toList.isPrefixOf mcs && isKDesig (mcs.drop 8)) ||
  ("hits@".toList.isPrefixOf mcs && isKDesig (mcs.drop 5))

/-- The invalid-name condition as the spec words it, parameterised by
the list of rank kinds deemed valid: the name (unless it is the
reserved `adjusted_mean_rank`) has more than one dot, or its
rank-kind part (defaulting to `avg` with no dot) is not allowed, or
its metric part is not a recognized designator. -/
def invalidMetricName (allowed : List String) (name : String) : Bool :=
  !(name == "adjusted_mean_rank") &&
  (if 1 < name.toList.count '.' then true
   else
     (!(allowed.contains (if name.toList.count '.' = 0 then "avg"
         else ((splitDotsC name.toList).getD 0 []).asString)) ||
      !(isMetricDesig (if name.toList.count '.' = 0 then name.toList
         else (splitDotsC name.toList).getD 1 []))))

/-- C5's reading of the invalid-name condition: `adj` is allowed. -/
def invalidNameClaimed (name : String) : Bool :=
  invalidMetricName ["best", "worst", "avg", "adj"] name

/-- The condition the code actually implements: only the members of
`RANK_TYPES` (best, worst, avg) are allowed. -/
def invalidNameCode (name : String) : Bool :=
  invalidMetricName RANK_TYPES name

theorem hits_at_not_hits_prefix (mcs : List Char)
    (h : ("hits_at_".toList).isPrefixOf mcs = true) :
    ("hits@".toList).isPrefixOf mcs = false := by
  obtain ⟨t, rfl⟩ := List.isPrefixOf_iff_prefix.mp h
  simp [List.isPrefixOf, List.cons_append]

theorem isValueError_ok (v : FVal) : isValueError (.ok v) = false := rfl

theorem isValueError_keyErr : isValueError (.error PyErr.keyError) = false := rfl

theorem isValueError_valErr (s : String) :
    isValueError (.error (PyErr.valueError s)) = true := rfl

theorem isValueError_hitsLookup (r : RankBasedMetricResults) (rt : String)
    (kcs : List Char) :
    isValueError (hitsLookup r rt kcs) = !(isKDesig kcs) := by
  by_cases hk : kcs = ['k']
  · have e : (kcs == ['k']) = true := by simp [hk]
    simp only [hitsLookup, if_pos hk, isKDesig, e, Bool.true_or, Bool.not_true]
    by_cases hmem : (10 : ℤ) ∈ r.hits_at_k_keys rt
    · rw [if_pos hmem]
      rfl
    · rw [if_neg hmem]
      rfl
  · have e : (kcs == ['k']) = false := by simp [hk]
    simp only [hitsLookup, if_neg hk, isKDesig, e, Bool.false_or]
    cases hpi : pyIntChars kcs with
    | none =>
      simp only [hpi]
      rfl
    | some k =>
      simp only [hpi]
      by_cases hmem : k ∈ r.hits_at_k_keys rt
      · rw [if_pos hmem]
        rfl
      · rw [if_neg hmem]
        rfl

theorem isValueError_getMetricTyped (r : RankBasedMetricResults)
    (rt : String) (mcs : List Char) (name : String) :
    isValueError (getMetricTyped r rt mcs name) =
      (!(RANK_TYPES.contains rt) || !(isMetricDesig mcs)) := by
  by_cases hmem : rt ∈ RANK_TYPES
  · have hc : RANK_TYPES.contains rt = true := by simpa using hmem
    simp only [getMetricTyped, if_pos hmem, hc, Bool.not_true, Bool.false_or]
    by_cases hm1 : mcs = "mean_rank".toList
    · have e1 : (mcs == "mean_rank".toList) = true := by simp [hm1]
      rw [if_pos hm1]
      simp only [isMetricDesig, e1, Bool.true_or, Bool.not_true]
      rfl
    · have e1 : (mcs == "mean_rank".toList) = false := by
        simp only [beq_eq_false_iff_ne, ne_eq]
        exact hm1
      rw [if_neg hm1]
      by_cases hm2 : mcs = "mean_reciprocal_rank".toList
      · have e2 : (mcs == "mean_reciprocal_rank".toList) = true := by simp [hm2]
        rw [if_pos hm2]
        simp only [isMetricDesig, e1, e2, Bool.false_or, Bool.true_or,
          Bool.not_true]
        rfl
      · have e2 : (mcs == "mean_reciprocal_rank".toList) = false := by
          simp only [beq_eq_false_iff_ne, ne_eq]
          exact hm2
        rw [if_neg hm2]
        by_cases hp1 : ("hits_at_".toList).isPrefixOf mcs = true
        · rw [if_pos hp1, isValueError_hitsLookup]
          have e4 : ("hits@".toList).isPrefixOf mcs = false :=
            hits_at_not_hits_prefix mcs hp1
          simp only [isMetricDesig, e1, e2, hp1, e4, Bool.false_or,
            Bool.true_and, Bool.false_and, Bool.or_false]
        · have hp1' : ("hits_at_".toList).isPrefixOf mcs = false :=
            Bool.eq_false_iff.mpr hp1
          rw [if_neg hp1]
          by_cases hp2 : ("hits@".toList).isPrefixOf mcs = true
          · rw [if_pos hp2, isValueError_hitsLookup]
            simp only [isMetricDesig, e1, e2, hp1', hp2, Bool.false_or,
              Bool.false_and, Bool.true_and]
          · have hp2' : ("hits@".toList).isPrefixOf mcs = false :=
              Bool.eq_false_iff.mpr hp2
            rw [if_neg hp2]
            simp only [isMetricDesig, e1, e2, hp1', hp2', Bool.false_or,
              Bool.false_and, Bool.or_false, Bool.not_false]
            rfl
  · have hc : RANK_TYPES.contains rt = false := by simpa using hmem
    simp only [getMetricTyped, if_neg hmem, hc, Bool.not_false, Bool.true_or]
    rfl

/-- C5 (amended): `get_metric` fails with an invalid-name
(`ValueError`) error exactly when the name — `adjusted_mean_rank`
excepted — has more than one dot, or its rank-kind part is not one of
`best`, `worst`, `avg` (in particular, `adj` is rejected, contrary to
the claim), or its metric part is not a recognized designator. -/
theorem get_metric_invalid_name_iff (r : RankBasedMetricResults)
    (name : String) :
    isValueError (r.get_metric name) = invalidNameCode name := by
  by_cases h0 : name = "adjusted_mean_rank"
  · subst h0
    rfl
  · have hbeq : (name == "adjusted_mean_rank") = false := by
      simp only [beq_eq_false_iff_ne, ne_eq]
      exact h0
    simp only [RankBasedMetricResults.get_metric, if_neg h0, invalidNameCode,
      invalidMetricName, hbeq, Bool.not_false, Bool.true_and]
    by_cases hd0 : name.toList.count '.' = 0
    · have hlt : ¬(1 < name.toList.count '.') := by omega
      rw [if_pos hd0, if_neg hlt, if_pos hd0, if_pos hd0,
        isValueError_getMetricTyped]
    · by_cases hd1 : name.toList.count '.' = 1
      · have hlt : ¬(1 < name.toList.count '.') := by omega
        rw [if_neg hd0, if_pos hd1, if_neg hlt, if_neg hd0, if_neg hd0,
          isValueError_getMetricTyped]
      · have hlt : 1 < name.toList.count '.' := by omega
        rw [if_neg hd0, if_neg hd1, if_pos hlt]
        rfl

/-- C5 counterexample to the claim as stated: the claim deems
`adj.mean_rank` a valid name (rank kind `adj`), but `get_metric`
raises an invalid-rank-type `ValueError` for it, since
`RANK_TYPES = {best, worst, avg}` does not contain `adj`. -/
theorem get_metric_adj_cex :
    invalidNameClaimed "adj.mean_rank" = false ∧
    isValueError (RankBasedMetricResults.get_metric
      ⟨fun _ => FVal.num 0, fun _ => FVal.num 0, fun _ => [],
       fun _ _ => FVal.num 0, FVal.num 0⟩ "adj.mean_rank") = true := by
  exact ⟨by decide, by decide⟩

/-- Witness for `get_metric_invalid_name_iff` at a concrete container
and name. -/
theorem get_metric_invalid_name_iff_wit :
    isValueError (RankBasedMetricResults.get_metric
      ⟨fun _ => FVal.num 0, fun _ => FVal.num 0, fun _ => [],
       fun _ _ => FVal.num 0, FVal.num 0⟩ "best.mean_rank") =
      invalidNameCode "best.mean_rank" :=
  get_metric_invalid_name_iff _ _

/-- C4 counterexample to the claim as stated: `to_flat_dict` contains
the key `avg.adjusted_mean_rank`, but `get_metric` on that very key
raises an invalid-metric-name error instead of returning its value. -/
theorem to_flat_dict_amr_cex :
    (("avg.adjusted_mean_rank", FVal.num 0) ∈
      RankBasedMetricResults.to_flat_dict
        ⟨fun _ => FVal.num 0, fun _ => FVal.num 0, fun _ => [],
         fun _ _ => FVal.num 0, FVal.num 0⟩) ∧
    isValueError (RankBasedMetricResults.get_metric
        ⟨fun _ => FVal.num 0, fun _ => FVal.num 0, fun _ => [],
         fun _ _ => FVal.num 0, FVal.num 0⟩ "avg.adjusted_mean_rank") = true := by
  exact ⟨List.mem_cons_self _ _, by decide⟩

/-- Witness for `get_metric_flat_consistent` at a concrete container
and flat-dict entry. -/
theorem get_metric_flat_consistent_wit :
    (("avg.mean_rank", FVal.num 7) ∈ RankBasedMetricResults.to_flat_dict
        ⟨fun _ => FVal.num 7, fun _ => FVal.num 0, fun _ => [10],
         fun _ _ => FVal.num 0, FVal.num 0⟩ ∧
      ("avg.mean_rank" : String) ≠ "avg.adjusted_mean_rank") ∧
    RankBasedMetricResults.get_metric
        ⟨fun _ => FVal.num 7, fun _ => FVal.num 0, fun _ => [10],
         fun _ _ => FVal.num 0, FVal.num 0⟩ "avg.mean_rank" =
      .ok (FVal.num 7) ∧
    RankBasedMetricResults.get_metric
        ⟨fun _ => FVal.num 7, fun _ => FVal.num 0, fun _ => [10],
         fun _ _ => FVal.num 0, FVal.num 0⟩ "hits@k" =
      RankBasedMetricResults.get_metric
        ⟨fun _ => FVal.num 7, fun _ => FVal.num 0, fun _ => [10],
         fun _ _ => FVal.num 0, FVal.num 0⟩ "avg.hits_at_10" :=
  ⟨⟨by decide, by decide⟩,
    get_metric_flat_consistent.1
      ⟨fun _ => FVal.num 7, fun _ => FVal.num 0, fun _ => [10],
       fun _ _ => FVal.num 0, FVal.num 0⟩
      ("avg.mean_rank", FVal.num 7) (by decide) (by decide),
    get_metric_flat_consistent.2 _⟩
